import Mathlib

/-!
Shallow embedding of the Go package `anneal` (file `anneal.go`): simulated
annealing optimization of arbitrary data types.

Modelling choices:
* Go `float64` values are modelled as real numbers (`ℝ`); `math.Exp` and
  `math.Log` are `Real.exp` and `Real.log`.
* The `State` interface is modelled by an arbitrary type `σ` together with
  two caller-supplied functions `E : σ → ℝ` (the `Energy` method) and
  `N : σ → σ` (the `Neighbor` method, modelled as a deterministic function,
  as in the spec's determinism property).
* The shared random source (`rand.Float64`) is modelled as a stream
  `R : ℕ → ℝ` of draws together with a cursor `rIdx` in the run state that
  advances exactly where the Go code calls `rand.Float64()` (once per
  non-improving candidate).
* Ghost instrumentation (changing no computed value, mirroring the spec's
  "instrumented state that counts calls"): `nN` counts `Neighbor` calls,
  `nE` counts `Energy` calls, and `seen` records the energies of the
  generated neighbor states, in order.
-/

namespace AnnealGo

/-- Embeds Go `Schedule`: `Iter int; Ti, Tf float64`. -/
structure Schedule where
  Iter : Int
  Ti : ℝ
  Tf : ℝ

/-- Embeds Go `NewSchedule`: `&Schedule{Iter: 1e6, Ti: 1, Tf: 1e-5}`. -/
noncomputable def NewSchedule : Schedule :=
  { Iter := 1000000, Ti := 1, Tf := 1e-5 }

/-- The transient run state of `Anneal`: working pair `s, e`, best pair
`sbest, ebest`, the random-stream cursor `rIdx`, and the ghost
instrumentation fields `nN` (Neighbor calls), `nE` (Energy calls) and
`seen` (energies of generated neighbors, chronological). -/
structure RunState (σ : Type) where
  s : σ
  e : ℝ
  sbest : σ
  ebest : ℝ
  rIdx : ℕ
  nN : ℕ
  nE : ℕ
  seen : List ℝ

/-- One iteration of the `for` loop body of Go `Anneal` at loop index `i`:
`snew := s.Neighbor(); enew := snew.Energy();` then the improving /
acceptance branches. The ghost fields record the one Neighbor call and the
one Energy call made here. -/
noncomputable def annealStep {σ : Type} (E : σ → ℝ) (N : σ → σ) (R : ℕ → ℝ)
    (T0 k : ℝ) (i : ℕ) (st : RunState σ) : RunState σ :=
  let snew := N st.s
  let enew := E snew
  let st1 : RunState σ :=
    { st with nN := st.nN + 1, nE := st.nE + 1, seen := st.seen ++ [enew] }
  if enew < st1.e then
    if enew < st1.ebest then
      { st1 with s := snew, e := enew, sbest := snew, ebest := enew }
    else
      { st1 with s := snew, e := enew }
  else
    let T := T0 * Real.exp (-(i : ℝ) / k)
    let p := Real.exp (-(enew - st1.e) / T)
    if R st1.rIdx > p then
      { st1 with rIdx := st1.rIdx + 1 }
    else
      { st1 with s := snew, e := enew, rIdx := st1.rIdx + 1 }

/-- The `for i := 0; i < sch.Iter; i++` loop of Go `Anneal`, running `n`
remaining iterations starting at loop index `i`. -/
noncomputable def annealIter {σ : Type} (E : σ → ℝ) (N : σ → σ) (R : ℕ → ℝ)
    (T0 k : ℝ) : ℕ → ℕ → RunState σ → RunState σ
  | _, 0, st => st
  | i, n + 1, st =>
      annealIter E N R T0 k (i + 1) n (annealStep E N R T0 k i st)

/-- The initialization of Go `Anneal`: `e := s.Energy(); sbest, ebest := s, e`.
The single Energy call on the input state is recorded in `nE`. -/
noncomputable def initRun {σ : Type} (E : σ → ℝ) (s : σ) : RunState σ :=
  { s := s, e := E s, sbest := s, ebest := E s,
    rIdx := 0, nN := 0, nE := 1, seen := [] }

/-- The run state of Go `Anneal` after the first `m` loop iterations
(`m = 0` is loop entry): initialization followed by `m` iterations with
`T0 = e * sch.Ti` and `k = float64(sch.Iter) / math.Log(sch.Ti / sch.Tf)`. -/
noncomputable def annealPrefix {σ : Type} (E : σ → ℝ) (N : σ → σ) (R : ℕ → ℝ)
    (s : σ) (sch : Schedule) (m : ℕ) : RunState σ :=
  annealIter E N R (E s * sch.Ti) ((sch.Iter : ℝ) / Real.log (sch.Ti / sch.Tf))
    0 m (initRun E s)

/-- The full run of Go `Anneal`: the loop `for i := 0; i < sch.Iter; i++`
executes `sch.Iter.toNat` iterations (none when `sch.Iter ≤ 0`). -/
noncomputable def AnnealRun {σ : Type} (E : σ → ℝ) (N : σ → σ) (R : ℕ → ℝ)
    (s : σ) (sch : Schedule) : RunState σ :=
  annealPrefix E N R s sch sch.Iter.toNat

/-- Embeds Go `Anneal`: returns `sbest` of the final run state. -/
noncomputable def Anneal {σ : Type} (E : σ → ℝ) (N : σ → σ) (R : ℕ → ℝ)
    (s : σ) (sch : Schedule) : σ :=
  (AnnealRun E N R s sch).sbest

/-! Concrete instances used in witnesses and counterexamples. -/

/-- A one-point state space whose energy is constantly `1`. -/
noncomputable def constE : Unit → ℝ := fun _ => 1

/-- The (only possible) neighbor function on the one-point space. -/
def neighborU : Unit → Unit := fun _ => ()

/-- A random stream that always draws `0`. -/
noncomputable def rnd0 : ℕ → ℝ := fun _ => 0

/-- A random stream that always draws `1/2`. -/
noncomputable def rndHalf : ℕ → ℝ := fun _ => 1 / 2

/-- A two-point state space: energy `1` at `false`, `2` at `true`. -/
noncomputable def boolE : Bool → ℝ := fun b => if b then 2 else 1

/-- The neighbor function on the two-point space: flip the point. -/
def boolN : Bool → Bool := fun b => !b

/-- A random stream extensionally equal to `rnd0` but defined differently. -/
noncomputable def rnd0b : ℕ → ℝ := fun n => 0 * (n : ℝ)

/-- A valid one-iteration schedule. -/
noncomputable def sched1 : Schedule := { Iter := 1, Ti := 1, Tf := 1 / 2 }

/-- A schedule with a non-positive iteration count. -/
noncomputable def schedNeg : Schedule := { Iter := -3, Ti := 1, Tf := 1 / 2 }

/-- The initial run state on the one-point space. -/
noncomputable def st0 : RunState Unit := initRun constE ()

/-- The initial run state on the two-point space, starting at `false`. -/
noncomputable def stB : RunState Bool := initRun boolE false

/-! Basic step lemmas. -/

theorem annealIter_zero {σ : Type} (E : σ → ℝ) (N : σ → σ) (R : ℕ → ℝ)
    (T0 k : ℝ) (i : ℕ) (st : RunState σ) :
    annealIter E N R T0 k i 0 st = st := rfl

theorem annealIter_succ {σ : Type} (E : σ → ℝ) (N : σ → σ) (R : ℕ → ℝ)
    (T0 k : ℝ) (i n : ℕ) (st : RunState σ) :
    annealIter E N R T0 k i (n + 1) st =
      annealIter E N R T0 k (i + 1) n (annealStep E N R T0 k i st) := rfl

theorem annealStep_nN {σ : Type} (E : σ → ℝ) (N : σ → σ) (R : ℕ → ℝ)
    (T0 k : ℝ) (i : ℕ) (st : RunState σ) :
    (annealStep E N R T0 k i st).nN = st.nN + 1 := by
  simp only [annealStep]
  split_ifs <;> rfl

theorem annealStep_nE {σ : Type} (E : σ → ℝ) (N : σ → σ) (R : ℕ → ℝ)
    (T0 k : ℝ) (i : ℕ) (st : RunState σ) :
    (annealStep E N R T0 k i st).nE = st.nE + 1 := by
  simp only [annealStep]
  split_ifs <;> rfl

theorem annealStep_seen {σ : Type} (E : σ → ℝ) (N : σ → σ) (R : ℕ → ℝ)
    (T0 k : ℝ) (i : ℕ) (st : RunState σ) :
    (annealStep E N R T0 k i st).seen = st.seen ++ [E (N st.s)] := by
  simp only [annealStep]
  split_ifs <;> rfl

theorem annealStep_ebest_le_e {σ : Type} (E : σ → ℝ) (N : σ → σ) (R : ℕ → ℝ)
    (T0 k : ℝ) (i : ℕ) (st : RunState σ) (h : st.ebest ≤ st.e) :
    (annealStep E N R T0 k i st).ebest ≤ (annealStep E N R T0 k i st).e := by
  simp only [annealStep]
  split_ifs <;> simp_all <;> linarith

theorem annealStep_sbestE {σ : Type} (E : σ → ℝ) (N : σ → σ) (R : ℕ → ℝ)
    (T0 k : ℝ) (i : ℕ) (st : RunState σ) (h : E st.sbest = st.ebest) :
    E (annealStep E N R T0 k i st).sbest = (annealStep E N R T0 k i st).ebest := by
  simp only [annealStep]
  split_ifs <;> simp_all

theorem annealStep_ebest_le {σ : Type} (E : σ → ℝ) (N : σ → σ) (R : ℕ → ℝ)
    (T0 k : ℝ) (i : ℕ) (st : RunState σ) :
    (annealStep E N R T0 k i st).ebest ≤ st.ebest := by
  simp only [annealStep]
  split_ifs <;> simp_all <;> linarith

theorem annealStep_ebest_min {σ : Type} (E : σ → ℝ) (N : σ → σ) (R : ℕ → ℝ)
    (T0 k : ℝ) (i : ℕ) (st : RunState σ) (h : st.ebest ≤ st.e) :
    (annealStep E N R T0 k i st).ebest = min st.ebest (E (N st.s)) := by
  simp only [annealStep]
  split_ifs <;> simp_all <;> linarith

/-! Loop-level lemmas, by induction on the number of remaining iterations. -/

theorem annealIter_nN {σ : Type} (E : σ → ℝ) (N : σ → σ) (R : ℕ → ℝ)
    (T0 k : ℝ) (n i : ℕ) (st : RunState σ) :
    (annealIter E N R T0 k i n st).nN = st.nN + n := by
  induction n generalizing i st with
  | zero => rfl
  | succ m ih =>
      rw [annealIter_succ, ih, annealStep_nN]
      omega

theorem annealIter_nE {σ : Type} (E : σ → ℝ) (N : σ → σ) (R : ℕ → ℝ)
    (T0 k : ℝ) (n i : ℕ) (st : RunState σ) :
    (annealIter E N R T0 k i n st).nE = st.nE + n := by
  induction n generalizing i st with
  | zero => rfl
  | succ m ih =>
      rw [annealIter_succ, ih, annealStep_nE]
      omega

theorem annealIter_ebest_le_e {σ : Type} (E : σ → ℝ) (N : σ → σ) (R : ℕ → ℝ)
    (T0 k : ℝ) (n i : ℕ) (st : RunState σ) (h : st.ebest ≤ st.e) :
    (annealIter E N R T0 k i n st).ebest ≤ (annealIter E N R T0 k i n st).e := by
  induction n generalizing i st with
  | zero => exact h
  | succ m ih =>
      rw [annealIter_succ]
      exact ih _ _ (annealStep_ebest_le_e E N R T0 k i st h)

theorem annealIter_sbestE {σ : Type} (E : σ → ℝ) (N : σ → σ) (R : ℕ → ℝ)
    (T0 k : ℝ) (n i : ℕ) (st : RunState σ) (h : E st.sbest = st.ebest) :
    E (annealIter E N R T0 k i n st).sbest = (annealIter E N R T0 k i n st).ebest := by
  induction n generalizing i st with
  | zero => exact h
  | succ m ih =>
      rw [annealIter_succ]
      exact ih _ _ (annealStep_sbestE E N R T0 k i st h)

theorem annealIter_ebest_le {σ : Type} (E : σ → ℝ) (N : σ → σ) (R : ℕ → ℝ)
    (T0 k : ℝ) (n i : ℕ) (st : RunState σ) :
    (annealIter E N R T0 k i n st).ebest ≤ st.ebest := by
  induction n generalizing i st with
  | zero => exact le_rfl
  | succ m ih =>
      rw [annealIter_succ]
      exact le_trans (ih _ _) (annealStep_ebest_le E N R T0 k i st)

theorem annealIter_ebest_foldl {σ : Type} (E : σ → ℝ) (N : σ → σ) (R : ℕ → ℝ)
    (T0 k : ℝ) (n i : ℕ) (st : RunState σ) (h : st.ebest ≤ st.e) :
    ∃ ds : List ℝ,
      (annealIter E N R T0 k i n st).seen = st.seen ++ ds ∧
      (annealIter E N R T0 k i n st).ebest = ds.foldl min st.ebest := by
  induction n generalizing i st with
  | zero => exact ⟨[], by simp [annealIter_zero]⟩
  | succ m ih =>
      obtain ⟨ds, hseen, hbest⟩ :=
        ih (i + 1) (annealStep E N R T0 k i st) (annealStep_ebest_le_e E N R T0 k i st h)
      refine ⟨E (N st.s) :: ds, ?_, ?_⟩
      · rw [annealIter_succ, hseen, annealStep_seen]
        simp
      · rw [annealIter_succ, hbest, annealStep_ebest_min E N R T0 k i st h]
        rfl

/-! Claim theorems. -/

/-- C8: `NewSchedule` returns a schedule with `iterations = 1,000,000`,
initial temperature ratio `1.0` and final temperature ratio `1e-5`. -/
theorem newSchedule_defaults :
    NewSchedule.Iter = 1000000 ∧ NewSchedule.Ti = 1 ∧
      NewSchedule.Tf = 1 / 100000 := by
  refine ⟨rfl, rfl, ?_⟩
  norm_num [NewSchedule]

/-- C9: throughout every run of `Anneal`, the best-so-far energy never
exceeds the current working energy: `ebest ≤ e` at loop entry (`m = 0`)
and after every iteration (`m` iterations done, for every `m`). -/
theorem anneal_ebest_le_e (σ : Type) (E : σ → ℝ) (N : σ → σ) (R : ℕ → ℝ)
    (s : σ) (sch : Schedule) (m : ℕ) :
    (annealPrefix E N R s sch m).ebest ≤ (annealPrefix E N R s sch m).e :=
  annealIter_ebest_le_e E N R _ _ m 0 (initRun E s) le_rfl

/-- C3: for every initial state and every schedule, the energy of the state
returned by `Anneal` is at most the initial state's energy. -/
theorem anneal_result_le_initial (σ : Type) (E : σ → ℝ) (N : σ → σ)
    (R : ℕ → ℝ) (s : σ) (sch : Schedule) :
    E (Anneal E N R s sch) ≤ E s := by
  have h1 : E (AnnealRun E N R s sch).sbest = (AnnealRun E N R s sch).ebest :=
    annealIter_sbestE E N R _ _ _ 0 (initRun E s) rfl
  have h2 : (AnnealRun E N R s sch).ebest ≤ (initRun E s).ebest :=
    annealIter_ebest_le E N R _ _ _ 0 (initRun E s)
  calc E (Anneal E N R s sch) = (AnnealRun E N R s sch).ebest := h1
    _ ≤ (initRun E s).ebest := h2
    _ = E s := rfl

/-- C7: two runs of `Anneal` on the same initial state and schedule, with
identical random draw streams and the same deterministic neighbor function,
produce identical results. -/
theorem anneal_deterministic (σ : Type) (E : σ → ℝ) (N : σ → σ)
    (R1 R2 : ℕ → ℝ) (s : σ) (sch : Schedule) (h : ∀ i, R1 i = R2 i) :
    Anneal E N R1 s sch = Anneal E N R2 s sch := by
  have hR : R1 = R2 := funext h
  rw [hR]

/-- Witness for C7 at a concrete instance: the two streams are defined
differently but draw the same values. -/
theorem anneal_deterministic_witness :
    Anneal constE neighborU rnd0 () sched1 =
      Anneal constE neighborU rnd0b () sched1 :=
  anneal_deterministic Unit constE neighborU rnd0 rnd0b () sched1
    (fun i => by simp [rnd0, rnd0b])

/-- C10: for every schedule with `iterations ≤ 0`, `Anneal` performs no
loop iterations: it returns the initial state, has called `Energy` exactly
once (on the initial state) and `Neighbor` never. -/
theorem anneal_nonpositive_iter (σ : Type) (E : σ → ℝ) (N : σ → σ)
    (R : ℕ → ℝ) (s : σ) (sch : Schedule) (h : sch.Iter ≤ 0) :
    Anneal E N R s sch = s ∧ (AnnealRun E N R s sch).nE = 1 ∧
      (AnnealRun E N R s sch).nN = 0 := by
  have hz : sch.Iter.toNat = 0 := Int.toNat_of_nonpos h
  refine ⟨?_, ?_, ?_⟩ <;>
    simp [Anneal, AnnealRun, annealPrefix, hz, annealIter_zero, initRun]

/-- Witness for C10 at a concrete schedule with `Iter = -3`. -/
theorem anneal_nonpositive_iter_witness :
    schedNeg.Iter ≤ 0 ∧
      (Anneal boolE boolN rnd0 false schedNeg = false ∧
        (AnnealRun boolE boolN rnd0 false schedNeg).nE = 1 ∧
        (AnnealRun boolE boolN rnd0 false schedNeg).nN = 0) :=
  ⟨by norm_num [schedNeg],
    anneal_nonpositive_iter Bool boolE boolN rnd0 false schedNeg
      (by norm_num [schedNeg])⟩

/-- C2 counterexample: with `iterations = 1`, the total number of
caller-capability calls is not `2 × 1` (it is `3`: the loop's one
Neighbor/Energy pair plus the initial `Energy` call on the input state). -/
theorem anneal_total_calls_counterexample :
    ¬ ((AnnealRun constE neighborU rnd0 () sched1).nN +
        (AnnealRun constE neighborU rnd0 () sched1).nE = 2 * 1) := by
  have hn : (AnnealRun constE neighborU rnd0 () sched1).nN = 1 := by
    rw [AnnealRun, annealPrefix, annealIter_nN]
    norm_num [initRun, sched1]
  have he : (AnnealRun constE neighborU rnd0 () sched1).nE = 2 := by
    rw [AnnealRun, annealPrefix, annealIter_nE]
    norm_num [initRun, sched1]
  omega

/-- C2 (amended): for every schedule with `iterations = N > 0`, a run makes
exactly `N` Neighbor calls and `N + 1` Energy calls (one per iteration plus
the initial call on the input state), so `2 × N + 1` caller-capability calls
in total. -/
theorem anneal_call_counts (σ : Type) (E : σ → ℝ) (N : σ → σ) (R : ℕ → ℝ)
    (s : σ) (sch : Schedule) (h : 0 < sch.Iter) :
    (AnnealRun E N R s sch).nN = sch.Iter.toNat ∧
      (AnnealRun E N R s sch).nE = sch.Iter.toNat + 1 ∧
      (AnnealRun E N R s sch).nN + (AnnealRun E N R s sch).nE =
        2 * sch.Iter.toNat + 1 := by
  have hn : (AnnealRun E N R s sch).nN = sch.Iter.toNat := by
    rw [AnnealRun, annealPrefix, annealIter_nN]
    simp [initRun]
  have he : (AnnealRun E N R s sch).nE = sch.Iter.toNat + 1 := by
    rw [AnnealRun, annealPrefix, annealIter_nE]
    simp [initRun]
    omega
  exact ⟨hn, he, by omega⟩

/-- Witness for C2's amended claim at a one-iteration schedule. -/
theorem anneal_call_counts_witness :
    0 < sched1.Iter ∧
      ((AnnealRun constE neighborU rnd0 () sched1).nN = sched1.Iter.toNat ∧
        (AnnealRun constE neighborU rnd0 () sched1).nE = sched1.Iter.toNat + 1 ∧
        (AnnealRun constE neighborU rnd0 () sched1).nN +
            (AnnealRun constE neighborU rnd0 () sched1).nE =
          2 * sched1.Iter.toNat + 1) :=
  ⟨by norm_num [sched1],
    anneal_call_counts Unit constE neighborU rnd0 () sched1
      (by norm_num [sched1])⟩

/-- C4: in every iteration, the best pair `(sbest, ebest)` changes only in
the improving branch (`enew < e`) and only when `enew < ebest`, in which
case it becomes `(snew, enew)`; an accepted non-improving candidate updates
the working pair but never the best pair. -/
theorem anneal_best_update (σ : Type) (E : σ → ℝ) (N : σ → σ) (R : ℕ → ℝ)
    (T0 k : ℝ) (i : ℕ) (st : RunState σ) :
    ((annealStep E N R T0 k i st).sbest =
        if E (N st.s) < st.e ∧ E (N st.s) < st.ebest then N st.s
        else st.sbest) ∧
    ((annealStep E N R T0 k i st).ebest =
        if E (N st.s) < st.e ∧ E (N st.s) < st.ebest then E (N st.s)
        else st.ebest) ∧
    (¬ E (N st.s) < st.e →
      ¬ R st.rIdx >
          Real.exp (-(E (N st.s) - st.e) / (T0 * Real.exp (-(i : ℝ) / k))) →
      (annealStep E N R T0 k i st).s = N st.s ∧
      (annealStep E N R T0 k i st).e = E (N st.s) ∧
      (annealStep E N R T0 k i st).sbest = st.sbest ∧
      (annealStep E N R T0 k i st).ebest = st.ebest) := by
  refine ⟨?_, ?_, ?_⟩
  · simp only [annealStep]
    split_ifs <;> simp_all
  · simp only [annealStep]
    split_ifs <;> simp_all
  · intro h1 h2
    simp only [annealStep]
    rw [if_neg h1, if_neg h2]
    exact ⟨rfl, rfl, rfl, rfl⟩

/-- Witness for C4 at a concrete non-improving accepted step. -/
theorem anneal_best_update_witness :
    (¬ boolE (boolN stB.s) < stB.e) ∧
      ((annealStep boolE boolN rnd0 1 37 0 stB).s = boolN stB.s ∧
        (annealStep boolE boolN rnd0 1 37 0 stB).e = boolE (boolN stB.s) ∧
        (annealStep boolE boolN rnd0 1 37 0 stB).sbest = stB.sbest ∧
        (annealStep boolE boolN rnd0 1 37 0 stB).ebest = stB.ebest) :=
  ⟨by norm_num [stB, initRun, boolE, boolN],
    (anneal_best_update Bool boolE boolN rnd0 1 37 0 stB).2.2
      (by norm_num [stB, initRun, boolE, boolN])
      (by simp only [rnd0]; exact not_lt.mpr (Real.exp_pos _).le)⟩

/-- C5: when the candidate's energy equals the working energy, the
acceptance probability is `exp 0 = 1`, and since the draw lies in `[0, 1)`
the candidate is always accepted: the working pair moves to the candidate
and the random cursor advances. -/
theorem anneal_equal_energy_accept (σ : Type) (E : σ → ℝ) (N : σ → σ)
    (R : ℕ → ℝ) (T0 k : ℝ) (i : ℕ) (st : RunState σ)
    (hE : E (N st.s) = st.e) (h0 : 0 ≤ R st.rIdx) (h1 : R st.rIdx < 1) :
    Real.exp (-(E (N st.s) - st.e) / (T0 * Real.exp (-(i : ℝ) / k))) = 1 ∧
      (annealStep E N R T0 k i st).s = N st.s ∧
      (annealStep E N R T0 k i st).e = E (N st.s) ∧
      (annealStep E N R T0 k i st).rIdx = st.rIdx + 1 := by
  have hp :
      Real.exp (-(E (N st.s) - st.e) / (T0 * Real.exp (-(i : ℝ) / k))) = 1 := by
    rw [hE]
    simp
  refine ⟨hp, ?_⟩
  have hni : ¬ E (N st.s) < st.e := by
    rw [hE]
    exact lt_irrefl _
  have hna : ¬ R st.rIdx >
      Real.exp (-(E (N st.s) - st.e) / (T0 * Real.exp (-(i : ℝ) / k))) := by
    rw [hp]
    exact not_lt.mpr h1.le
  simp only [annealStep]
  rw [if_neg hni, if_neg hna]
  exact ⟨rfl, rfl, rfl⟩

/-- Witness for C5 on the constant-energy one-point space. -/
theorem anneal_equal_energy_accept_witness :
    (constE (neighborU st0.s) = st0.e) ∧
      (Real.exp (-(constE (neighborU st0.s) - st0.e) /
          (1 * Real.exp (-((0 : ℕ) : ℝ) / 37))) = 1 ∧
        (annealStep constE neighborU rnd0 1 37 0 st0).s = neighborU st0.s ∧
        (annealStep constE neighborU rnd0 1 37 0 st0).e =
          constE (neighborU st0.s) ∧
        (annealStep constE neighborU rnd0 1 37 0 st0).rIdx = st0.rIdx + 1) :=
  ⟨rfl,
    anneal_equal_energy_accept Unit constE neighborU rnd0 1 37 0 st0 rfl
      (by norm_num [rnd0]) (by norm_num [rnd0])⟩

/-- C6: a rejected non-improving candidate (`enew ≥ e` and draw `r > p`)
leaves the working pair and the best pair exactly as they were. -/
theorem anneal_reject_frame (σ : Type) (E : σ → ℝ) (N : σ → σ) (R : ℕ → ℝ)
    (T0 k : ℝ) (i : ℕ) (st : RunState σ)
    (h1 : ¬ E (N st.s) < st.e)
    (h2 : R st.rIdx >
        Real.exp (-(E (N st.s) - st.e) / (T0 * Real.exp (-(i : ℝ) / k)))) :
    (annealStep E N R T0 k i st).s = st.s ∧
      (annealStep E N R T0 k i st).e = st.e ∧
      (annealStep E N R T0 k i st).sbest = st.sbest ∧
      (annealStep E N R T0 k i st).ebest = st.ebest := by
  simp only [annealStep]
  rw [if_neg h1, if_pos h2]
  exact ⟨rfl, rfl, rfl, rfl⟩

/-- Witness for C6: a concrete rejected step (draw `1/2 > exp (-1)`). -/
theorem anneal_reject_frame_witness :
    (¬ boolE (boolN stB.s) < stB.e) ∧
      ((annealStep boolE boolN rndHalf 1 37 0 stB).s = stB.s ∧
        (annealStep boolE boolN rndHalf 1 37 0 stB).e = stB.e ∧
        (annealStep boolE boolN rndHalf 1 37 0 stB).sbest = stB.sbest ∧
        (annealStep boolE boolN rndHalf 1 37 0 stB).ebest = stB.ebest) :=
  ⟨by norm_num [stB, initRun, boolE, boolN],
    anneal_reject_frame Bool boolE boolN rndHalf 1 37 0 stB
      (by norm_num [stB, initRun, boolE, boolN])
      (by
        have h2 : (2 : ℝ) < Real.exp 1 :=
          lt_trans (by norm_num) Real.exp_one_gt_d9
        have harg :
            -(boolE (boolN stB.s) - stB.e) /
                ((1 : ℝ) * Real.exp (-((0 : ℕ) : ℝ) / 37)) = -1 := by
          norm_num [boolE, boolN, stB, initRun]
        rw [gt_iff_lt, harg, Real.exp_neg]
        have hinv : (Real.exp 1)⁻¹ < (2 : ℝ)⁻¹ :=
          inv_strictAnti₀ (by norm_num) h2
        calc (Real.exp 1)⁻¹ < (2 : ℝ)⁻¹ := hinv
          _ ≤ rndHalf stB.rIdx := by norm_num [rndHalf])⟩

/-- C1: for every initial state and valid schedule, `Anneal` returns a
state whose energy is the minimum over the initial state's energy and the
energies of all neighbor states generated during the run; moreover there is
a run whose returned best state differs from the final working state. -/
theorem anneal_returns_lowest :
    (∀ (σ : Type) (E : σ → ℝ) (N : σ → σ) (R : ℕ → ℝ) (s : σ)
        (sch : Schedule),
        0 < sch.Iter → sch.Tf < sch.Ti → 0 < sch.Tf →
        E (Anneal E N R s sch) =
          (AnnealRun E N R s sch).seen.foldl min (E s)) ∧
    (∃ (E : Bool → ℝ) (N : Bool → Bool) (R : ℕ → ℝ) (s : Bool)
        (sch : Schedule),
        Anneal E N R s sch ≠ (AnnealRun E N R s sch).s) := by
  constructor
  · intro σ E N R s sch _ _ _
    have hs : E (AnnealRun E N R s sch).sbest = (AnnealRun E N R s sch).ebest :=
      annealIter_sbestE E N R _ _ _ 0 (initRun E s) rfl
    obtain ⟨ds, hseen, hbest⟩ :=
      annealIter_ebest_foldl E N R (E s * sch.Ti)
        ((sch.Iter : ℝ) / Real.log (sch.Ti / sch.Tf)) sch.Iter.toNat 0
        (initRun E s) le_rfl
    have hrun : AnnealRun E N R s sch =
        annealIter E N R (E s * sch.Ti)
          ((sch.Iter : ℝ) / Real.log (sch.Ti / sch.Tf)) 0 sch.Iter.toNat
          (initRun E s) := rfl
    calc E (Anneal E N R s sch) = (AnnealRun E N R s sch).ebest := hs
      _ = ds.foldl min (E s) := by rw [hrun]; exact hbest
      _ = (AnnealRun E N R s sch).seen.foldl min (E s) := by
          rw [hrun, hseen]
          simp [initRun]
  · refine ⟨boolE, boolN, rnd0, false, sched1, ?_⟩
    have h1 : AnnealRun boolE boolN rnd0 false sched1 =
        annealStep boolE boolN rnd0 (boolE false * sched1.Ti)
          ((sched1.Iter : ℝ) / Real.log (sched1.Ti / sched1.Tf)) 0
          (initRun boolE false) := rfl
    have hni : ¬ boolE (boolN (initRun boolE false).s) <
        (initRun boolE false).e := by
      norm_num [boolE, boolN, initRun]
    have hr : ∀ (x : ℕ) (y : ℝ), ¬ rnd0 x > Real.exp y := fun x y => by
      simp only [rnd0]
      exact not_lt.mpr (Real.exp_pos _).le
    rw [Anneal, h1]
    simp only [annealStep]
    rw [if_neg hni, if_neg (hr _ _)]
    simp [initRun, boolN]

/-- Witness for C1's universal part at a concrete valid schedule. -/
theorem anneal_returns_lowest_witness :
    0 < sched1.Iter ∧
      constE (Anneal constE neighborU rnd0 () sched1) =
        (AnnealRun constE neighborU rnd0 () sched1).seen.foldl min
          (constE ()) :=
  ⟨by norm_num [sched1],
    anneal_returns_lowest.1 Unit constE neighborU rnd0 () sched1
      (by norm_num [sched1]) (by norm_num [sched1]) (by norm_num [sched1])⟩

end AnnealGo
